import Mathlib

/-!
Verification development for the audiogames.net database scraper (`agdb.py`).

The scraper is shallowly embedded: HTML documents are abstracted to exactly
the structure the code inspects (table rows with their `td` cells, the flat
sequence of nodes in document order, the selection form with its options),
Python dicts become association lists whose keys occur at most once, and
fallible code returns `Except`.
-/

namespace AgDb

/-- The Python exceptions the scraper can raise, as an abstract error type.
`attributeError` abstracts `AttributeError` (for example calling `findNext`
on the `None` returned when no "Description" heading exists, or calling
`.lower` on a `game` object), `indexError` abstracts `IndexError` from
`row[0]` / `row[1]` on a row with fewer than two cells, `keyError` a missing
subscripted attribute such as `["href"]` or `["value"]`, `typeError`
subscripting `None` or calling a string, `runtimeError` the explicit
`RuntimeError` raised by `game.diff`, and `transportError` a failed
network fetch (`raise_for_status`). -/
inductive PyErr
  | indexError
  | keyError
  | attributeError
  | typeError
  | runtimeError
  | transportError
  deriving DecidableEq, Repr

/-- A Python `dict` with string keys and string values, embedded as an
association list in insertion order. Real Python dicts never hold a key
twice; constructions in this file go through `dictInsert`, which preserves
that, and theorems about externally supplied dicts assume `NodupKeys`
where the invariant matters. -/
abbrev Dict := List (String × String)

/-- Python `d[k]` as an option: the value at the first occurrence of `k`. -/
def dictGet (d : Dict) (k : String) : Option String :=
  (d.find? (fun p => p.1 == k)).map (fun p => p.2)

/-- Python `k in d`. -/
def dictHas (d : Dict) (k : String) : Bool :=
  (dictGet d k).isSome

/-- Python `d[k] = v`: overwrite the value at the (unique) occurrence of the
key when present, otherwise append the pair, preserving insertion order. -/
def dictInsert (d : Dict) (k v : String) : Dict :=
  match d with
  | [] => [(k, v)]
  | p :: rest => if p.1 == k then (k, v) :: rest else p :: dictInsert rest k v

/-- Python `d.update(e)`: fold the pairs of `e` into `d` in order. -/
def dictUpdate (d e : Dict) : Dict :=
  e.foldl (fun a p => dictInsert a p.1 p.2) d

/-- The Python dict invariant: every key occurs at most once. -/
def NodupKeys (d : Dict) : Prop :=
  (d.map Prod.fst).Nodup

/-! ### The `game` class (detail parser, diff engine) -/

/-- The `game` class of `agdb.py`: an identifier, the detail-page URL and the
scraped attribute mapping `info` (empty until `parse` succeeds). -/
structure game where
  id : String
  db_url : String
  info : Dict
  deriving DecidableEq, Repr

/-- `game.to_dict`: the flattened persisted Record,
`dct = {"id": ..., "db_url": ...}; dct.update(self.info)`. -/
def game.to_dict (g : game) : Dict :=
  dictUpdate [("id", g.id), ("db_url", g.db_url)] g.info

/-- One step of the diff loop of `game.diff`:
`for k in new: if not k in old or new[k] != old[k]: d[k] = new[k]`. -/
def diffPairs (old : Dict) : List (String × String) → Dict → Dict
  | [], d => d
  | p :: rest, d =>
      diffPairs old rest
        (if !dictHas old p.1 || dictGet old p.1 != some p.2 then dictInsert d p.1 p.2 else d)

/-- `game.diff`: raises `RuntimeError` when `self.info` is empty, otherwise
returns the mapping of keys of `to_dict` that are absent from `old` or map
to a different value there. (The Python method also accepts another `game`
instance, in which case it compares against that instance's `info`; the
dict form is the one the program uses.) -/
def game.diff (g : game) (old : Dict) : Except PyErr Dict :=
  if g.info.isEmpty then .error .runtimeError
  else .ok (diffPairs old g.to_dict [])

/-- A `td` cell of a detail-page table row. `text` is the cell's plain text;
`firstA` is `none` when the cell contains no `a` element, and otherwise
holds the result of `value.find("a")` abstracted to its `href` attribute
(`some none` = an `a` element without an `href`, whose subscript raises
`KeyError`). -/
structure Cell where
  text : String
  firstA : Option (Option String)
  deriving DecidableEq, Repr

/-- The second-cell value: `value.find("a")["href"]` when the cell contains
a hyperlink (bs4 tags are truthy), else `value.text`. -/
def cellValue (c : Cell) : Except PyErr String :=
  match c.firstA with
  | none => .ok c.text
  | some none => .error .keyError
  | some (some href) => .ok href

/-- Python `str.rstrip(":")`: remove every trailing colon. -/
def rstripColon (s : String) : String :=
  String.mk ((s.toList.reverse.dropWhile (fun c => c == ':')).reverse)

/-- The table pass of `game.parse`: for each `tr`, take its `td` cells; read
`row[0]` and `row[1]` (an `IndexError` when the row has fewer than two
cells), strip trailing colons from the first cell's text for the key, and
store the second cell's value. Extra cells beyond the first two are never
inspected. -/
def parseRows : List (List Cell) → Dict → Except PyErr Dict
  | [], info => .ok info
  | cells :: rest, info =>
    match cells with
    | c0 :: c1 :: _ =>
      match cellValue c1 with
      | .error e => .error e
      | .ok v => parseRows rest (dictInsert info (rstripColon c0.text) v)
    | _ => .error .indexError

/-- A node of the detail page in document order, abstracted to its tag
name, its text and its serialized markup (`str(node)`). -/
structure Node where
  name : String
  text : String
  markup : String
  deriving DecidableEq, Repr

/-- The stop condition of the description scan:
`heading.name == "h2" and heading.text in ("Admin", "Community", "Quick Links")`. -/
def isStopHeading (n : Node) : Bool :=
  n.name == "h2" && (n.text == "Admin" || n.text == "Community" || n.text == "Quick Links")

/-- The node matched by `soup.find("h2", text="Description")`. -/
def isDescriptionHeading (n : Node) : Bool :=
  n.name == "h2" && n.text == "Description"

/-- `soup.find("h2", text="Description")` over the document-order node
sequence: the nodes following the first description heading, or `none`
when the heading is absent. -/
def findDescriptionHeading : List Node → Option (List Node)
  | [] => none
  | n :: rest => if isDescriptionHeading n then some rest else findDescriptionHeading rest

/-- The `while True: heading = heading.findNext()` loop: append each
traversed node's markup until a stop heading is reached (not included);
when the document ends first, `findNext` yields `None` and reading `.name`
raises `AttributeError`. -/
def scanDescription : List Node → String → Except PyErr String
  | [], _ => .error .attributeError
  | n :: rest, acc =>
      if isStopHeading n then .ok acc else scanDescription rest (acc ++ n.markup)

/-- A fetched detail page, abstracted to what `game.parse` inspects: the
`td` cells of each `tr` (in document order) and the flat sequence of all
nodes in document order. -/
structure DetailDoc where
  rows : List (List Cell)
  nodes : List Node
  deriving DecidableEq, Repr

/-- `game.parse` on an already-fetched document (the HTTP transport is an
external collaborator): the table pass fills the attribute mapping, then
the description scan stores the accumulated markup under `"description"`.
When no `h2` with text `"Description"` exists, `find` returns `None` and
`None.findNext()` raises `AttributeError` (the structure-error case of the
design). -/
def game.parse (doc : DetailDoc) : Except PyErr Dict :=
  match parseRows doc.rows [] with
  | .error e => .error e
  | .ok info =>
    match findDescriptionHeading doc.nodes with
    | none => .error .attributeError
    | some rest =>
      match scanDescription rest "" with
      | .error e => .error e
      | .ok description => .ok (dictInsert info "description" description)

/-! ### The listing parser (`AgDB.parse`) -/

/-- An `option` element of the selection form; `value` is its `value`
attribute (`option["value"]` raises `KeyError` when absent). -/
structure OptTag where
  value : Option String
  deriving DecidableEq, Repr

/-- The `form` with id `SelfSubmit`: its `action` attribute and its
`option` elements in document order. -/
structure ListingForm where
  action : Option String
  options : List OptTag
  deriving DecidableEq, Repr

/-- A fetched listing page, abstracted to the result of
`soup.find("form", id="SelfSubmit")`. -/
structure ListingDoc where
  selfSubmitForm : Option ListingForm
  deriving DecidableEq, Repr

/-- Upper-case hexadecimal digit, used by percent-encoding. -/
def hexUpperDigit (n : Nat) : Char :=
  if n < 10 then Char.ofNat (48 + n) else Char.ofNat (55 + n)

/-- Bytes `urllib.parse.quote_plus` leaves unescaped: ASCII alphanumerics
and `_.-~`. -/
def isUrlSafeByte (b : UInt8) : Bool :=
  (48 ≤ b && b ≤ 57) || (65 ≤ b && b ≤ 90) || (97 ≤ b && b ≤ 122) ||
  b == 95 || b == 46 || b == 45 || b == 126

/-- `quote_plus` on one UTF-8 byte: space becomes `+`, safe bytes stand for
themselves, everything else is percent-encoded. -/
def quotePlusByte (b : UInt8) : String :=
  if b == 32 then "+"
  else if isUrlSafeByte b then String.singleton (Char.ofNat b.toNat)
  else String.mk [Char.ofNat 37, hexUpperDigit (b.toNat / 16), hexUpperDigit (b.toNat % 16)]

/-- `urllib.parse.quote_plus` over the UTF-8 bytes of a string. -/
def quote_plus (s : String) : String :=
  s.toUTF8.toList.foldl (fun acc b => acc ++ quotePlusByte b) ""

/-- `urlencode({"id": id})`. -/
def urlencodeId (id : String) : String :=
  "id=" ++ quote_plus id

/-- The detail URL for one identifier:
`db_url = db_base + "&" + urlencode({"id": id})`, resolved with
`urljoin(self.url, db_url)` when it does not start with `"http"` (the
code's absoluteness test). `urljoin` itself is an external collaborator
and is passed in as a function. -/
def mkDbUrl (urljoin : String → String → String) (pageUrl dbBase id : String) : String :=
  let u := dbBase ++ "&" ++ urlencodeId id
  if u.startsWith "http" then u else urljoin pageUrl u

/-- The option loop of `AgDB.parse`: read each option's `value` attribute
(`KeyError` when absent), skip the placeholder value `"Select"`, and append
a fresh `game` (empty `info`) with the constructed detail URL. -/
def AgDB.parseOptions (urljoin : String → String → String) (pageUrl dbBase : String) :
    List OptTag → List game → Except PyErr (List game)
  | [], games => .ok games
  | o :: rest, games =>
    match o.value with
    | none => .error .keyError
    | some id =>
      if id == "Select" then AgDB.parseOptions urljoin pageUrl dbBase rest games
      else AgDB.parseOptions urljoin pageUrl dbBase rest
        (games ++ [⟨id, mkDbUrl urljoin pageUrl dbBase id, []⟩])

/-- `AgDB.parse`: find the `SelfSubmit` form (`form["action"]` on the
`None` returned for a missing form raises `TypeError`), read its `action`
attribute (`KeyError` when absent) and run the option loop, appending to
the already-collected `self.games`. -/
def AgDB.parse (urljoin : String → String → String) (pageUrl : String)
    (doc : ListingDoc) (games : List game) : Except PyErr (List game) :=
  match doc.selfSubmitForm with
  | none => .error .typeError
  | some form =>
    match form.action with
    | none => .error .keyError
    | some dbBase => AgDB.parseOptions urljoin pageUrl dbBase form.options games

/-! ### The collection store (`AgDB`) -/

/-- The sort key of `save_game_json`: `lambda k: k["id"]`. A record without
an `"id"` key would raise `KeyError` in Python; the embedding totalizes
with `""` and every theorem about the store assumes records carry `"id"`,
which all records produced by `game.to_dict` do. -/
def idKey (r : Dict) : String :=
  (dictGet r "id").getD ""

/-- `AgDB.save_game_json`: re-sort the collection by identifier before
writing. `json.dump` and the file itself are external collaborators, so
saving is embedded as producing the list that is written out;
`sorted` is a stable sort, embedded as insertion sort. -/
def AgDB.save_game_json (store : List Dict) : List Dict :=
  store.insertionSort (fun a b => idKey a ≤ idKey b)

/-- `AgDB.load_game_json` on a file that `save_game_json` just wrote:
`json.load` returns exactly the array that was dumped. -/
def AgDB.load_game_json (persisted : List Dict) : List Dict :=
  persisted

/-- The lookup predicate of `update_if_needed`:
`[i for i in self.games_json if i["id"] == game.id]` (exact, case-sensitive
comparison; `i["id"]` assumes the stored record has an `"id"` key). -/
def matchesId (id : String) (r : Dict) : Bool :=
  dictGet r "id" == some id

/-- Replace the first record satisfying `p`. `update_if_needed` mutates
`self.games_json[idx]` where `idx = games_json.index(json_game)`; since
equal dicts have equal `"id"` values and `json_game` is the first record
whose `"id"` matches, that index is exactly the position of the first
match. -/
def replaceFirst (p : Dict → Bool) (x : Dict) : List Dict → List Dict
  | [] => []
  | r :: rest => if p r then x :: rest else r :: replaceFirst p x rest

/-- `AgDB.update_if_needed`: append `game.to_dict()` when no stored record
has the game's id; otherwise compute the diff against the first matching
record and, when the diff is non-empty, merge it into that record in place
with `dict.update`. -/
def AgDB.update_if_needed (store : List Dict) (g : game) : Except PyErr (List Dict) :=
  match store.find? (matchesId g.id) with
  | none => .ok (store ++ [g.to_dict])
  | some r =>
    match g.diff r with
    | .error e => .error e
    | .ok d =>
      if d.isEmpty then .ok store
      else .ok (replaceFirst (matchesId g.id) (dictUpdate r d) store)

/-- `AgDB.get_game`, faithfully including its bug: the loop
`for game in self.games:` rebinds the name `game`, shadowing the query
parameter, and the condition `game.lower() == game.id.lower()` looks up
`lower` on the `game` instance. `__getattr__` searches `self.info`, so on
a non-empty collection the first iteration raises `AttributeError` (or
`TypeError` when a scraped attribute is literally named `"lower"`, since
its string value is not callable); on an empty collection the loop falls
through and returns `None`. -/
def AgDB.get_game (games : List game) (query : String) : Except PyErr (Option game) :=
  match games with
  | [] => .ok none
  | g :: _ =>
    if dictHas g.info "lower" then .error .typeError else .error .attributeError

/-! ### The crawl driver (`__main__`) -/

/-- Whether a per-item outcome is a failure caught by the bare `except`. -/
def isErrItem (it : Except PyErr game) : Bool :=
  match it with
  | .error _ => true
  | .ok _ => false

/-- The per-item loop of `__main__`. Each item is the outcome of fetching
and parsing one listed game (`.ok g` = `g.parse()` succeeded and `g` holds
the parsed `info`; `.error e` = the fetch or the parse raised). A success
is merged with `update_if_needed` (whose own exceptions are caught by the
same bare `except`); a failure increments the error counter and breaks out
of the loop once the counter exceeds 5. The randomized inter-item sleep
has no observable effect on the collection and is not modelled, nor is
`KeyboardInterrupt` cancellation. -/
def crawlLoop : List (Except PyErr game) → List Dict → Nat → List Dict
  | [], store, _ => store
  | .error _ :: rest, store, errors =>
      if errors + 1 > 5 then store else crawlLoop rest store (errors + 1)
  | .ok g :: rest, store, errors =>
      match AgDB.update_if_needed store g with
      | .ok store2 => crawlLoop rest store2 errors
      | .error _ => if errors + 1 > 5 then store else crawlLoop rest store (errors + 1)

/-- The tail of `__main__`: run the per-item loop on the loaded collection
and always call `save_game_json` once at the end. -/
def crawlDriver (items : List (Except PyErr game)) (store : List Dict) : List Dict :=
  AgDB.save_game_json (crawlLoop items store 0)

/-! ### Spec-side description of the row pass

These definitions restate, for comparison, what the table pass does on
rows the code can actually process; they are the reference side of the
amended row-handling claim. -/

/-- A row the table pass handles without raising: at least two cells, and
a second cell whose first hyperlink (if any) carries an `href`. -/
def goodRow (cells : List Cell) : Bool :=
  match cells with
  | _ :: c1 :: _ =>
    match c1.firstA with
    | some none => false
    | _ => true
  | _ => false

/-- The value the table pass stores for a good second cell. -/
def rowValue (c : Cell) : String :=
  match c.firstA with
  | some (some href) => href
  | some none => ""
  | none => c.text

/-- The entries the table pass accumulates over good rows: one entry per
row with at least two cells, keyed by the first cell, valued by the
second; cells beyond the second play no part. -/
def applyRows (rows : List (List Cell)) (info : Dict) : Dict :=
  rows.foldl (fun acc cells =>
    match cells with
    | c0 :: c1 :: _ => dictInsert acc (rstripColon c0.text) (rowValue c1)
    | _ => acc) info

/-! ### Dictionary lemmas -/

theorem dictGet_nil (k : String) : dictGet [] k = none := rfl

theorem dictGet_cons (p : String × String) (d : Dict) (k : String) :
    dictGet (p :: d) k = if p.1 = k then some p.2 else dictGet d k := by
  by_cases h : p.1 = k
  · simp [dictGet, List.find?, h]
  · have hb : (p.1 == k) = false := by simp [h]
    simp [dictGet, List.find?, hb, h]

theorem dictGet_eq_none_of_has_false {d : Dict} {k : String}
    (h : dictHas d k = false) : dictGet d k = none := by
  unfold dictHas at h
  cases hv : dictGet d k with
  | none => rfl
  | some v => rw [hv] at h; simp at h

theorem dictHas_iff_mem_keys (d : Dict) (k : String) :
    dictHas d k = true ↔ k ∈ d.map Prod.fst := by
  induction d with
  | nil => simp [dictHas, dictGet]
  | cons p rest ih =>
    by_cases h : p.1 = k
    · simp [dictHas, dictGet_cons, h]
    · simp only [dictHas, dictGet_cons, if_neg h, List.map_cons, List.mem_cons]
      rw [← dictHas]
      rw [ih]
      constructor
      · intro hm; exact Or.inr hm
      · intro hm
        cases hm with
        | inl he => exact absurd he.symm h
        | inr hm => exact hm

theorem dictGet_eq_none_of_not_mem {d : Dict} {k : String}
    (h : k ∉ d.map Prod.fst) : dictGet d k = none := by
  apply dictGet_eq_none_of_has_false
  cases hb : dictHas d k with
  | false => rfl
  | true => exact absurd ((dictHas_iff_mem_keys d k).mp hb) h

theorem dictGet_insert (d : Dict) (k v k' : String) :
    dictGet (dictInsert d k v) k' = if k' = k then some v else dictGet d k' := by
  induction d with
  | nil =>
    rw [show dictInsert [] k v = [(k, v)] from rfl, dictGet_cons]
    by_cases h : k' = k
    · rw [if_pos h.symm, if_pos h]
    · rw [if_neg (fun hh => h hh.symm), if_neg h, dictGet_nil]
  | cons p rest ih =>
    by_cases hp : p.1 = k
    · have hpb : (p.1 == k) = true := by simp [hp]
      simp only [dictInsert, hpb, if_true]
      rw [dictGet_cons, dictGet_cons]
      by_cases h : k' = k
      · rw [if_pos h.symm, if_pos h]
      · rw [if_neg (fun hh => h hh.symm), if_neg h,
          if_neg (fun hh : p.1 = k' => h (hh.symm.trans hp))]
    · have hpb : (p.1 == k) = false := by simp [hp]
      simp only [dictInsert, hpb, Bool.false_eq_true, if_false]
      rw [dictGet_cons, dictGet_cons, ih]
      by_cases hq : p.1 = k'
      · rw [if_pos hq, if_pos hq, if_neg (fun hh : k' = k => hp (hq.trans hh))]
      · rw [if_neg hq, if_neg hq]

theorem keys_dictInsert (d : Dict) (k v : String) :
    (dictInsert d k v).map Prod.fst =
      if dictHas d k then d.map Prod.fst else d.map Prod.fst ++ [k] := by
  induction d with
  | nil => simp [dictInsert, dictHas, dictGet]
  | cons p rest ih =>
    by_cases hp : p.1 = k
    · simp [dictInsert, hp, dictHas, dictGet_cons]
    · have hpb : (p.1 == k) = false := by simp [hp]
      have hhas : dictHas (p :: rest) k = dictHas rest k := by
        unfold dictHas
        rw [dictGet_cons, if_neg hp]
      simp only [dictInsert, hpb, Bool.false_eq_true, if_false, List.map_cons, ih, hhas]
      by_cases hh : dictHas rest k
      · simp [hh]
      · simp [hh]

theorem nodupKeys_dictInsert {d : Dict} (k v : String) (h : NodupKeys d) :
    NodupKeys (dictInsert d k v) := by
  unfold NodupKeys
  rw [keys_dictInsert]
  by_cases hh : dictHas d k
  · simpa [hh] using h
  · have hk : k ∉ d.map Prod.fst := by
      intro hm
      rw [← dictHas_iff_mem_keys] at hm
      exact absurd hm (by simp [hh])
    simp only [hh, Bool.false_eq_true, if_false]
    exact List.Nodup.append h (List.nodup_singleton k) (by
      intro a ha hb
      simp at hb
      subst hb
      exact hk ha)

theorem nodupKeys_nil : NodupKeys [] := List.nodup_nil

theorem nodupKeys_dictUpdate {d : Dict} (e : Dict) (h : NodupKeys d) :
    NodupKeys (dictUpdate d e) := by
  induction e generalizing d with
  | nil => exact h
  | cons p rest ih => exact ih (nodupKeys_dictInsert p.1 p.2 h)

theorem dictGet_dictUpdate (d : Dict) {e : Dict} (he : NodupKeys e) (k : String) :
    dictGet (dictUpdate d e) k =
      match dictGet e k with
      | some v => some v
      | none => dictGet d k := by
  induction e generalizing d with
  | nil => simp [dictUpdate, dictGet]
  | cons p rest ih =>
    have hnd : NodupKeys rest := by
      unfold NodupKeys at he ⊢
      exact (List.nodup_cons.mp he).2
    have hnm : p.1 ∉ rest.map Prod.fst := (List.nodup_cons.mp he).1
    have step : dictUpdate d (p :: rest) = dictUpdate (dictInsert d p.1 p.2) rest := rfl
    rw [step, ih (dictInsert d p.1 p.2) hnd, dictGet_cons]
    by_cases h : k = p.1
    · subst h
      rw [dictGet_eq_none_of_not_mem hnm, if_pos rfl]
      simp [dictGet_insert]
    · rw [if_neg (fun hh => h hh.symm)]
      cases hv : dictGet rest k with
      | some v => simp
      | none => simp [dictGet_insert, h]

/-! ### Diff engine lemmas -/

theorem diffCond_eq (old : Dict) (k v : String) :
    (!dictHas old k || dictGet old k != some v) = (dictGet old k != some v) := by
  cases hb : dictHas old k with
  | false => simp [dictGet_eq_none_of_has_false hb]
  | true => simp

theorem dictGet_diffPairs (old : Dict) :
    ∀ (ps : List (String × String)) (d0 : Dict),
      (ps.map Prod.fst).Nodup →
      (∀ p ∈ ps, dictHas d0 p.1 = false) →
      ∀ k v, dictGet (diffPairs old ps d0) k = some v ↔
        (dictGet d0 k = some v ∨ (dictGet ps k = some v ∧ dictGet old k ≠ some v)) := by
  intro ps
  induction ps with
  | nil =>
    intro d0 _ _ k v
    simp [diffPairs, dictGet_nil]
  | cons p rest ih =>
    intro d0 hnd hdisj k v
    have hnd' : (rest.map Prod.fst).Nodup := (List.nodup_cons.mp hnd).2
    have hpnot : p.1 ∉ rest.map Prod.fst := (List.nodup_cons.mp hnd).1
    have hd0p : dictGet d0 p.1 = none :=
      dictGet_eq_none_of_has_false (hdisj p (List.mem_cons_self p rest))
    have step : diffPairs old (p :: rest) d0 =
        diffPairs old rest
          (if !dictHas old p.1 || dictGet old p.1 != some p.2
           then dictInsert d0 p.1 p.2 else d0) := rfl
    rw [step, diffCond_eq]
    by_cases hc : dictGet old p.1 = some p.2
    · have hcb : (dictGet old p.1 != some p.2) = false := by simp [hc]
      rw [hcb]
      simp only [Bool.false_eq_true, if_false]
      rw [ih d0 hnd' (fun q hq => hdisj q (List.mem_cons_of_mem p hq)), dictGet_cons]
      by_cases hk : p.1 = k
      · subst hk
        rw [if_pos rfl, dictGet_eq_none_of_not_mem hpnot]
        constructor
        · intro h; exact Or.inl (h.elim id (fun hh => absurd hh.1 (by simp)))
        · intro h
          refine Or.inl (h.elim id (fun hh => ?_))
          have hv : p.2 = v := by simpa using hh.1
          exact absurd (hv ▸ hc) hh.2
      · rw [if_neg hk]
    · have hcb : (dictGet old p.1 != some p.2) = true := by simp [hc]
      rw [hcb]
      simp only [if_true]
      have hdisj' : ∀ q ∈ rest, dictHas (dictInsert d0 p.1 p.2) q.1 = false := by
        intro q hq
        have hqne : q.1 ≠ p.1 := by
          intro he
          exact hpnot (he ▸ List.mem_map_of_mem Prod.fst hq)
        unfold dictHas
        rw [dictGet_insert, if_neg hqne,
          dictGet_eq_none_of_has_false (hdisj q (List.mem_cons_of_mem p hq))]
        rfl
      rw [ih (dictInsert d0 p.1 p.2) hnd' hdisj', dictGet_insert, dictGet_cons]
      by_cases hk : k = p.1
      · subst hk
        rw [if_pos rfl, if_pos rfl, hd0p, dictGet_eq_none_of_not_mem hpnot]
        constructor
        · intro h
          have hv : some p.2 = some v := h.elim id (fun hh => absurd hh.1 (by simp))
          have hv2 : p.2 = v := by simpa using hv
          exact Or.inr ⟨hv, hv2 ▸ hc⟩
        · intro h
          exact Or.inl (h.elim (fun hh => absurd hh (by simp)) (fun hh => hh.1))
      · rw [if_neg hk, if_neg (fun hh : p.1 = k => hk hh.symm)]

theorem nodupKeys_diffPairs (old : Dict) :
    ∀ (ps : List (String × String)) (d0 : Dict),
      NodupKeys d0 → NodupKeys (diffPairs old ps d0) := by
  intro ps
  induction ps with
  | nil => intro d0 h; exact h
  | cons p rest ih =>
    intro d0 h
    show NodupKeys (diffPairs old rest _)
    by_cases hc : (!dictHas old p.1 || dictGet old p.1 != some p.2) = true
    · rw [if_pos hc]
      exact ih _ (nodupKeys_dictInsert p.1 p.2 h)
    · rw [if_neg hc]
      exact ih _ h

theorem nodupKeys_to_dict (g : game) : NodupKeys g.to_dict := by
  apply nodupKeys_dictUpdate
  show (["id", "db_url"] : List String).Nodup
  decide

theorem game_isEmpty_false {g : game} (h : g.info ≠ []) : g.info.isEmpty = false := by
  cases hi : g.info with
  | nil => exact absurd hi h
  | cons a l => rfl

theorem game_diff_ok {g : game} (old : Dict) (h : g.info ≠ []) :
    g.diff old = Except.ok (diffPairs old g.to_dict []) := by
  unfold game.diff
  rw [game_isEmpty_false h]
  simp

/-! ### Store lemmas -/

theorem replaceFirst_self {p : Dict → Bool} {l : List Dict} {r : Dict}
    (h : l.find? p = some r) : replaceFirst p r l = l := by
  induction l with
  | nil => simp at h
  | cons a rest ih =>
    cases hp : p a with
    | true =>
      rw [List.find?_cons_of_pos _ hp] at h
      have : r = a := by simpa using h.symm
      subst this
      simp [replaceFirst, hp]
    | false =>
      rw [List.find?_cons_of_neg _ (by simp [hp])] at h
      simp [replaceFirst, hp, ih h]

theorem update_if_needed_isOk (store : List Dict) (g : game) (h : g.info ≠ []) :
    ∃ s, AgDB.update_if_needed store g = Except.ok s := by
  unfold AgDB.update_if_needed
  cases hf : store.find? (matchesId g.id) with
  | none => exact ⟨_, rfl⟩
  | some r =>
    show ∃ s,
      (match g.diff r with
       | Except.error e => Except.error e
       | Except.ok d =>
         if d.isEmpty then Except.ok store
         else Except.ok (replaceFirst (matchesId g.id) (dictUpdate r d) store)) =
        Except.ok s
    rw [game_diff_ok r h]
    show ∃ s,
      (if (diffPairs r g.to_dict []).isEmpty then Except.ok store
       else Except.ok
         (replaceFirst (matchesId g.id) (dictUpdate r (diffPairs r g.to_dict [])) store)) =
        Except.ok s
    by_cases hd : (diffPairs r g.to_dict []).isEmpty = true
    · rw [if_pos hd]
      exact ⟨_, rfl⟩
    · rw [if_neg hd]
      exact ⟨_, rfl⟩

/-! ### Crawl driver lemmas -/

theorem crawlLoop_stops (post : List (Except PyErr game)) :
    ∀ (pre : List (Except PyErr game)) (e : Nat) (store : List Dict)
      (it : Except PyErr game),
      isErrItem it = true →
      (∀ g, Except.ok g ∈ pre → g.info ≠ []) →
      e + pre.countP isErrItem = 5 →
      crawlLoop (pre ++ it :: post) store e = crawlLoop pre store e := by
  intro pre
  induction pre with
  | nil =>
    intro e store it hit hpre hcount
    simp only [List.countP_nil, Nat.add_zero] at hcount
    subst hcount
    cases it with
    | error err => simp [crawlLoop]
    | ok g => simp [isErrItem] at hit
  | cons a pre' ih =>
    intro e store it hit hpre hcount
    cases a with
    | error err =>
      have hc5 : (e + 1) + pre'.countP isErrItem = 5 := by
        rw [List.countP_cons] at hcount
        simp [isErrItem] at hcount
        omega
      have hle : ¬ (e + 1 > 5) := by omega
      show (if e + 1 > 5 then store else crawlLoop (pre' ++ it :: post) store (e + 1)) =
        (if e + 1 > 5 then store else crawlLoop pre' store (e + 1))
      rw [if_neg hle, if_neg hle]
      exact ih (e + 1) store it hit (fun g hg => hpre g (List.mem_cons_of_mem _ hg)) hc5
    | ok g =>
      have hinfo : g.info ≠ [] := hpre g (List.mem_cons_self _ _)
      obtain ⟨s, hs⟩ := update_if_needed_isOk store g hinfo
      have hc5 : e + pre'.countP isErrItem = 5 := by
        rw [List.countP_cons] at hcount
        simp [isErrItem] at hcount
        omega
      show (match AgDB.update_if_needed store g with
            | .ok store2 => crawlLoop (pre' ++ it :: post) store2 e
            | .error _ => if e + 1 > 5 then store else crawlLoop (pre' ++ it :: post) store (e + 1)) = _
      rw [hs]
      show crawlLoop (pre' ++ it :: post) s e =
        (match AgDB.update_if_needed store g with
         | .ok store2 => crawlLoop pre' store2 e
         | .error _ => if e + 1 > 5 then store else crawlLoop pre' store (e + 1))
      rw [hs]
      exact ih e s it hit (fun g2 hg => hpre g2 (List.mem_cons_of_mem _ hg)) hc5

/-! ### Detail parser lemmas -/

theorem findDescriptionHeading_eq_none {ns : List Node}
    (h : ∀ n ∈ ns, isDescriptionHeading n = false) :
    findDescriptionHeading ns = none := by
  induction ns with
  | nil => rfl
  | cons n rest ih =>
    unfold findDescriptionHeading
    rw [h n (List.mem_cons_self _ _)]
    simp only [Bool.false_eq_true, if_false]
    exact ih (fun m hm => h m (List.mem_cons_of_mem _ hm))

theorem findDescriptionHeading_append (pre rest : List Node) (dHead : Node)
    (hpre : ∀ n ∈ pre, isDescriptionHeading n = false)
    (hd : isDescriptionHeading dHead = true) :
    findDescriptionHeading (pre ++ dHead :: rest) = some rest := by
  induction pre with
  | nil => simp [findDescriptionHeading, hd]
  | cons n pre' ih =>
    show (if isDescriptionHeading n then some (pre' ++ dHead :: rest)
          else findDescriptionHeading (pre' ++ dHead :: rest)) = some rest
    rw [hpre n (List.mem_cons_self _ _)]
    simp only [Bool.false_eq_true, if_false]
    exact ih (fun m hm => hpre m (List.mem_cons_of_mem _ hm))

theorem scanDescription_append (ns post : List Node) (stopN : Node)
    (hns : ∀ n ∈ ns, isStopHeading n = false)
    (hstop : isStopHeading stopN = true) :
    ∀ acc, scanDescription (ns ++ stopN :: post) acc =
      Except.ok (ns.foldl (fun a n => a ++ n.markup) acc) := by
  induction ns with
  | nil =>
    intro acc
    simp [scanDescription, hstop]
  | cons n ns' ih =>
    intro acc
    show (if isStopHeading n then Except.ok acc
          else scanDescription (ns' ++ stopN :: post) (acc ++ n.markup)) = _
    rw [hns n (List.mem_cons_self _ _)]
    simp only [Bool.false_eq_true, if_false, List.foldl_cons]
    exact ih (fun m hm => hns m (List.mem_cons_of_mem _ hm)) (acc ++ n.markup)

/-! ### Listing parser lemmas -/

theorem parseOptions_spec (urljoin : String → String → String) (pageUrl dbBase : String) :
    ∀ (opts : List OptTag) (vs : List String) (games : List game),
      opts.map OptTag.value = vs.map some →
      AgDB.parseOptions urljoin pageUrl dbBase opts games =
        Except.ok (games ++ (vs.filter (fun v => v != "Select")).map
          (fun id => ⟨id, mkDbUrl urljoin pageUrl dbBase id, []⟩)) := by
  intro opts
  induction opts with
  | nil =>
    intro vs games h
    have hvs : vs = [] := by
      cases vs with
      | nil => rfl
      | cons v vs' => simp at h
    subst hvs
    simp [AgDB.parseOptions]
  | cons o rest ih =>
    intro vs games h
    cases vs with
    | nil => simp at h
    | cons v vs' =>
      simp only [List.map_cons, List.cons.injEq] at h
      obtain ⟨hv, hrest⟩ := h
      show (match o.value with
            | none => Except.error PyErr.keyError
            | some id =>
              if id == "Select" then AgDB.parseOptions urljoin pageUrl dbBase rest games
              else AgDB.parseOptions urljoin pageUrl dbBase rest
                (games ++ [game.mk id (mkDbUrl urljoin pageUrl dbBase id) []])) = _
      rw [hv]
      show (if (v == "Select") = true then AgDB.parseOptions urljoin pageUrl dbBase rest games
            else AgDB.parseOptions urljoin pageUrl dbBase rest
              (games ++ [game.mk v (mkDbUrl urljoin pageUrl dbBase v) []])) = _
      by_cases hsel : v = "Select"
      · have hb : (v == "Select") = true := by simp [hsel]
        rw [hb]
        simp only [if_true]
        rw [ih vs' games hrest]
        have hf : (v :: vs').filter (fun w => w != "Select") =
            vs'.filter (fun w => w != "Select") := by
          simp [List.filter_cons, hsel]
        rw [hf]
      · have hb : (v == "Select") = false := by simp [hsel]
        rw [hb]
        simp only [Bool.false_eq_true, if_false]
        rw [ih vs' (games ++ [game.mk v (mkDbUrl urljoin pageUrl dbBase v) []]) hrest]
        have hf : (v :: vs').filter (fun w => w != "Select") =
            v :: vs'.filter (fun w => w != "Select") := by
          simp [List.filter_cons, hsel]
        rw [hf]
        simp

/-- A good row steps the row pass to the tail row list with the entry
formed from its first two cells, matching the reference fold. -/
theorem parseRows_cons_good {cells : List Cell} (rest : List (List Cell)) (info : Dict)
    (hg : goodRow cells = true) :
    ∃ c0 c1 tl, cells = c0 :: c1 :: tl ∧
      parseRows (cells :: rest) info =
        parseRows rest (dictInsert info (rstripColon c0.text) (rowValue c1)) ∧
      applyRows (cells :: rest) info =
        applyRows rest (dictInsert info (rstripColon c0.text) (rowValue c1)) := by
  cases cells with
  | nil => simp [goodRow] at hg
  | cons c0 r0 =>
    cases r0 with
    | nil => simp [goodRow] at hg
    | cons c1 tl =>
      refine ⟨c0, c1, tl, rfl, ?_, rfl⟩
      cases hA : c1.firstA with
      | none =>
        have hcv : cellValue c1 = Except.ok c1.text := by
          unfold cellValue
          rw [hA]
        have hrv : rowValue c1 = c1.text := by
          unfold rowValue
          rw [hA]
        show (match cellValue c1 with
              | Except.error e => Except.error e
              | Except.ok v => parseRows rest (dictInsert info (rstripColon c0.text) v)) = _
        rw [hcv, hrv]
      | some oh =>
        cases oh with
        | none =>
          exfalso
          have hgr : goodRow (c0 :: c1 :: tl) =
              (match c1.firstA with
               | some none => false
               | _ => true) := rfl
          rw [hgr, hA] at hg
          simp at hg
        | some href =>
          have hcv : cellValue c1 = Except.ok href := by
            unfold cellValue
            rw [hA]
          have hrv : rowValue c1 = href := by
            unfold rowValue
            rw [hA]
          show (match cellValue c1 with
                | Except.error e => Except.error e
                | Except.ok v => parseRows rest (dictInsert info (rstripColon c0.text) v)) = _
          rw [hcv, hrv]

/-! ### Claims -/

/-- C1: For every freshly parsed item (its `info` is non-empty, as every
successful `parse` is) and every prior record, the diff produced by
`game.diff` contains exactly those keys of the new flattened record that
are absent from the prior record or bound to a different value under exact
string equality; it never contains a key present only in the prior record,
and it is empty when the prior record holds every new key with an equal
value. -/
theorem diff_engine_minimal (g : game) (old : Dict) (h : g.info ≠ []) :
    ∃ d, g.diff old = Except.ok d ∧
      (∀ k v, dictGet d k = some v ↔
        (dictGet g.to_dict k = some v ∧ dictGet old k ≠ some v)) ∧
      ((∀ k v, dictGet g.to_dict k = some v → dictGet old k = some v) → d = []) := by
  refine ⟨diffPairs old g.to_dict [], game_diff_ok old h, ?_, ?_⟩
  · intro k v
    rw [dictGet_diffPairs old g.to_dict [] (nodupKeys_to_dict g) (fun p _ => rfl) k v]
    simp [dictGet_nil]
  · intro hall
    cases hdm : diffPairs old g.to_dict [] with
    | nil => rfl
    | cons p rest =>
      exfalso
      have hp : dictGet (p :: rest) p.1 = some p.2 := by
        rw [dictGet_cons, if_pos rfl]
      rw [← hdm] at hp
      have hchar := (dictGet_diffPairs old g.to_dict [] (nodupKeys_to_dict g)
        (fun q _ => rfl) p.1 p.2).mp hp
      cases hchar with
      | inl hl => simp [dictGet_nil] at hl
      | inr hr => exact hr.2 (hall p.1 p.2 hr.1)

/-- C1 witness: a concrete game and prior record. -/
theorem diff_engine_minimal_witness :
    ∃ d, game.diff (game.mk "x1" "u" [("Author", "me")])
        [("id", "x1"), ("Author", "you")] = Except.ok d ∧
      (∀ k v, dictGet d k = some v ↔
        (dictGet (game.to_dict (game.mk "x1" "u" [("Author", "me")])) k = some v ∧
         dictGet [("id", "x1"), ("Author", "you")] k ≠ some v)) ∧
      ((∀ k v, dictGet (game.to_dict (game.mk "x1" "u" [("Author", "me")])) k = some v →
          dictGet [("id", "x1"), ("Author", "you")] k = some v) → d = []) :=
  diff_engine_minimal (game.mk "x1" "u" [("Author", "me")])
    [("id", "x1"), ("Author", "you")] (by decide)

/-- C2 counterexample: a detail page whose first table row has no `td`
cells. The claim says such a row is ignored without producing an entry and
without causing a failure, but `row[0]` raises `IndexError` and the parse
of the whole page fails. -/
theorem row_not_two_cells_counterexample :
    game.parse (DetailDoc.mk [[]]
      [Node.mk "h2" "Description" "<h2>Description</h2>",
       Node.mk "h2" "Community" "<h2>Community</h2>"]) =
      Except.error PyErr.indexError := rfl

/-- C2 amended: the Detail Parser produces an entry from the first two
cells of every table row having at least two cells (first cell's text with
trailing colons stripped as key; second cell's hyperlink target if it
contains one, else its plain text as value; cells beyond the second are
ignored), and a row with fewer than two cells raises an `IndexError` that
fails the parse of that page instead of being ignored. -/
theorem parse_rows_amended :
    (∀ (rows : List (List Cell)) (info : Dict),
        (∀ r ∈ rows, goodRow r = true) →
        parseRows rows info = Except.ok (applyRows rows info)) ∧
    (∀ (pre : List (List Cell)) (cells : List Cell) (post : List (List Cell)) (info : Dict),
        (∀ r ∈ pre, goodRow r = true) → cells.length < 2 →
        parseRows (pre ++ cells :: post) info = Except.error PyErr.indexError) := by
  constructor
  · intro rows
    induction rows with
    | nil => intro info _; rfl
    | cons cells rest ih =>
      intro info hgood
      obtain ⟨c0, c1, tl, hcells, hstep, happ⟩ :=
        parseRows_cons_good rest info (hgood cells (List.mem_cons_self _ _))
      rw [hstep, happ, ih _ (fun r hr => hgood r (List.mem_cons_of_mem _ hr))]
  · intro pre
    induction pre with
    | nil =>
      intro cells post info _ hlen
      cases cells with
      | nil => rfl
      | cons c0 r0 =>
        cases r0 with
        | nil => rfl
        | cons c1 tl =>
          exfalso
          rw [List.length_cons, List.length_cons] at hlen
          omega
    | cons cells0 pre' ih =>
      intro cells post info hgood hlen
      obtain ⟨c0, c1, tl, hcells, hstep, happ⟩ :=
        parseRows_cons_good (pre' ++ cells :: post) info (hgood cells0 (List.mem_cons_self _ _))
      rw [List.cons_append, hstep]
      exact ih cells post _ (fun r hr => hgood r (List.mem_cons_of_mem _ hr)) hlen

/-- C2 witness: a two-cell row yields its entry; a zero-cell row raises. -/
theorem parse_rows_amended_witness :
    parseRows [[Cell.mk "Author:" none, Cell.mk "me" none]] [] =
      Except.ok (applyRows [[Cell.mk "Author:" none, Cell.mk "me" none]] []) ∧
    parseRows [[]] [] = Except.error PyErr.indexError :=
  ⟨parse_rows_amended.1 [[Cell.mk "Author:" none, Cell.mk "me" none]] [] (by decide),
   parse_rows_amended.2 [] [] [] [] (by simp) (by decide)⟩

/-- C3: when the document-order node sequence after the first
"Description" `h2` heading consists of K nodes none of which is a stop
heading, followed by a level-2 heading whose text is "Admin", "Community"
or "Quick Links", the value stored under `"description"` is the
concatenated serialized markup of exactly those K nodes, excluding the
stop heading and everything after it. -/
theorem parse_description_exact (doc : DetailDoc) (pre ns post : List Node)
    (dHead stopN : Node) (info0 : Dict)
    (hdoc : doc.nodes = pre ++ dHead :: (ns ++ stopN :: post))
    (hpre : ∀ n ∈ pre, isDescriptionHeading n = false)
    (hd : isDescriptionHeading dHead = true)
    (hns : ∀ n ∈ ns, isStopHeading n = false)
    (hstop : isStopHeading stopN = true)
    (hrows : parseRows doc.rows [] = Except.ok info0) :
    ∃ out, game.parse doc = Except.ok out ∧
      dictGet out "description" = some (ns.foldl (fun acc n => acc ++ n.markup) "") := by
  refine ⟨dictInsert info0 "description" (ns.foldl (fun acc n => acc ++ n.markup) ""), ?_, ?_⟩
  · unfold game.parse
    rw [hrows, hdoc, findDescriptionHeading_append pre (ns ++ stopN :: post) dHead hpre hd]
    show (match scanDescription (ns ++ stopN :: post) "" with
          | Except.error e => Except.error e
          | Except.ok description => Except.ok (dictInsert info0 "description" description)) = _
    rw [scanDescription_append ns post stopN hns hstop ""]
  · rw [dictGet_insert]
    simp

/-- C3 witness: one paragraph between the headings. -/
theorem parse_description_exact_witness :
    ∃ out, game.parse (DetailDoc.mk []
        [Node.mk "h2" "Description" "<h2>Description</h2>",
         Node.mk "p" "Hi" "<p>Hi</p>",
         Node.mk "h2" "Community" "<h2>Community</h2>"]) = Except.ok out ∧
      dictGet out "description" =
        some ([Node.mk "p" "Hi" "<p>Hi</p>"].foldl (fun acc n => acc ++ n.markup) "") :=
  parse_description_exact
    (DetailDoc.mk []
      [Node.mk "h2" "Description" "<h2>Description</h2>",
       Node.mk "p" "Hi" "<p>Hi</p>",
       Node.mk "h2" "Community" "<h2>Community</h2>"])
    [] [Node.mk "p" "Hi" "<p>Hi</p>"] []
    (Node.mk "h2" "Description" "<h2>Description</h2>")
    (Node.mk "h2" "Community" "<h2>Community</h2>")
    [] rfl (by simp) (by decide) (by decide) (by decide) rfl

/-- C4: on a listing document whose `SelfSubmit` form is present with an
`action` attribute and options carrying values `vs`, the Identifier Lister
appends exactly one game per non-placeholder option, in document order,
each with the detail URL built by appending the `id=` query parameter to
the form's submission target and resolving against the page URL when the
result does not start with `"http"` (the code's absoluteness test). -/
theorem listing_lister_pairs (urljoin : String → String → String) (pageUrl : String)
    (doc : ListingDoc) (form : ListingForm) (dbBase : String) (vs : List String)
    (games : List game)
    (hform : doc.selfSubmitForm = some form)
    (haction : form.action = some dbBase)
    (hvals : form.options.map OptTag.value = vs.map some) :
    AgDB.parse urljoin pageUrl doc games =
      Except.ok (games ++ (vs.filter (fun v => v != "Select")).map
        (fun id => game.mk id (mkDbUrl urljoin pageUrl dbBase id) [])) := by
  unfold AgDB.parse
  rw [hform]
  show (match form.action with
        | none => Except.error PyErr.keyError
        | some dbB => AgDB.parseOptions urljoin pageUrl dbB form.options games) = _
  rw [haction]
  exact parseOptions_spec urljoin pageUrl dbBase form.options vs games hvals

/-- C4 witness: a placeholder option and one real identifier. -/
theorem listing_lister_pairs_witness :
    AgDB.parse (fun base rel => base ++ rel) "P"
        (ListingDoc.mk (some (ListingForm.mk (some "db.php?x=1")
          [OptTag.mk (some "Select"), OptTag.mk (some "q9")]))) [] =
      Except.ok ((["Select", "q9"].filter (fun v => v != "Select")).map
        (fun id => game.mk id (mkDbUrl (fun base rel => base ++ rel) "P" "db.php?x=1" id) [])) :=
  listing_lister_pairs (fun base rel => base ++ rel) "P"
    (ListingDoc.mk (some (ListingForm.mk (some "db.php?x=1")
      [OptTag.mk (some "Select"), OptTag.mk (some "q9")])))
    (ListingForm.mk (some "db.php?x=1") [OptTag.mk (some "Select"), OptTag.mk (some "q9")])
    "db.php?x=1" ["Select", "q9"] [] rfl rfl rfl

/-- C5: the claimed case-insensitive lookup does not happen. `get_game`'s
loop variable shadows the query parameter, so the condition calls `.lower`
on a `game` object and `__getattr__` raises `AttributeError` on the very
first record — evaluated here on a one-record collection. Moreover the
lookup that `update_if_needed` performs is case-sensitive: a stored record
with id `"FOO"` does not match a game with id `"foo"`, which is appended
as a duplicate instead of matched. -/
theorem get_game_lookup_raises :
    AgDB.get_game [game.mk "Q9" "http://agdb/q9" [("Author", "me")]] "q9" =
      Except.error PyErr.attributeError ∧
    AgDB.update_if_needed [[("id", "FOO")]] (game.mk "foo" "u" [("x", "1")]) =
      Except.ok [[("id", "FOO")], [("id", "foo"), ("db_url", "u"), ("x", "1")]] :=
  ⟨rfl, rfl⟩

/-- C6: upserting into a store that holds a record with the game's id
merges the diff into that record in place — every diff key ends up with
the diff's value, every other stored key keeps its previous value, and no
stored key is deleted; when no record with the id exists, the flattened
record is appended. -/
theorem update_if_needed_upsert :
    (∀ (store : List Dict) (g : game) (r : Dict),
        store.find? (matchesId g.id) = some r → g.info ≠ [] →
        ∃ d, g.diff r = Except.ok d ∧
          AgDB.update_if_needed store g =
            Except.ok (replaceFirst (matchesId g.id) (dictUpdate r d) store) ∧
          (∀ k v, dictGet d k = some v → dictGet (dictUpdate r d) k = some v) ∧
          (∀ k, dictHas d k = false → dictGet (dictUpdate r d) k = dictGet r k) ∧
          (∀ k, dictHas r k = true → dictHas (dictUpdate r d) k = true)) ∧
    (∀ (store : List Dict) (g : game),
        store.find? (matchesId g.id) = none →
        AgDB.update_if_needed store g = Except.ok (store ++ [g.to_dict])) := by
  constructor
  · intro store g r hfind hinfo
    have hdiff := game_diff_ok r hinfo
    have hndd : NodupKeys (diffPairs r g.to_dict []) :=
      nodupKeys_diffPairs r g.to_dict [] nodupKeys_nil
    refine ⟨diffPairs r g.to_dict [], hdiff, ?_, ?_, ?_, ?_⟩
    · unfold AgDB.update_if_needed
      rw [hfind]
      show (match g.diff r with
            | Except.error e => Except.error e
            | Except.ok d =>
              if d.isEmpty then Except.ok store
              else Except.ok (replaceFirst (matchesId g.id) (dictUpdate r d) store)) = _
      rw [hdiff]
      show (if (diffPairs r g.to_dict []).isEmpty then Except.ok store
            else Except.ok (replaceFirst (matchesId g.id)
              (dictUpdate r (diffPairs r g.to_dict [])) store)) = _
      by_cases hd : (diffPairs r g.to_dict []).isEmpty = true
      · rw [if_pos hd]
        have hdnil : diffPairs r g.to_dict [] = [] := by
          cases hdm : diffPairs r g.to_dict [] with
          | nil => rfl
          | cons a l => rw [hdm] at hd; simp at hd
        rw [hdnil]
        show Except.ok store =
          Except.ok (replaceFirst (matchesId g.id) (dictUpdate r []) store)
        rw [show dictUpdate r [] = r from rfl, replaceFirst_self hfind]
      · rw [if_neg hd]
    · intro k v hkv
      rw [dictGet_dictUpdate r hndd k, hkv]
    · intro k hk
      rw [dictGet_dictUpdate r hndd k, dictGet_eq_none_of_has_false hk]
    · intro k hk
      unfold dictHas
      rw [dictGet_dictUpdate r hndd k]
      cases hv : dictGet (diffPairs r g.to_dict []) k with
      | none => exact hk
      | some v => rfl
  · intro store g hfind
    unfold AgDB.update_if_needed
    rw [hfind]

/-- C6 witness: the spec's worked example, stored record with `a` and `b`,
fresh parse with `a`, a changed `b` and a new `c`. -/
theorem update_if_needed_upsert_witness :
    ∃ d, game.diff (game.mk "g1" "u" [("a", "1"), ("b", "3"), ("c", "4")])
          [("id", "g1"), ("a", "1"), ("b", "2")] = Except.ok d ∧
      AgDB.update_if_needed [[("id", "g1"), ("a", "1"), ("b", "2")]]
          (game.mk "g1" "u" [("a", "1"), ("b", "3"), ("c", "4")]) =
        Except.ok (replaceFirst (matchesId "g1")
          (dictUpdate [("id", "g1"), ("a", "1"), ("b", "2")] d)
          [[("id", "g1"), ("a", "1"), ("b", "2")]]) ∧
      (∀ k v, dictGet d k = some v →
        dictGet (dictUpdate [("id", "g1"), ("a", "1"), ("b", "2")] d) k = some v) ∧
      (∀ k, dictHas d k = false →
        dictGet (dictUpdate [("id", "g1"), ("a", "1"), ("b", "2")] d) k =
          dictGet [("id", "g1"), ("a", "1"), ("b", "2")] k) ∧
      (∀ k, dictHas [("id", "g1"), ("a", "1"), ("b", "2")] k = true →
        dictHas (dictUpdate [("id", "g1"), ("a", "1"), ("b", "2")] d) k = true) :=
  update_if_needed_upsert.1 [[("id", "g1"), ("a", "1"), ("b", "2")]]
    (game.mk "g1" "u" [("a", "1"), ("b", "3"), ("c", "4")])
    [("id", "g1"), ("a", "1"), ("b", "2")] rfl (by decide)

/-- C7: once five failures have accumulated, a sixth failing item makes the
driver stop early: the items after it are never processed (the run's
result does not depend on them), no failure escapes the loop (the driver
is a total function into stores), and the collection accumulated so far is
still passed to `save_game_json`. -/
theorem crawl_circuit_breaker (pre post : List (Except PyErr game))
    (it : Except PyErr game) (store : List Dict)
    (hit : isErrItem it = true)
    (hpre : ∀ g, Except.ok g ∈ pre → g.info ≠ [])
    (hcount : pre.countP isErrItem = 5) :
    crawlDriver (pre ++ it :: post) store = AgDB.save_game_json (crawlLoop pre store 0) ∧
    crawlDriver (pre ++ it :: post) store = crawlDriver (pre ++ [it]) store := by
  have h1 := crawlLoop_stops post pre 0 store it hit hpre (by omega)
  have h2 := crawlLoop_stops [] pre 0 store it hit hpre (by omega)
  refine ⟨?_, ?_⟩
  · unfold crawlDriver
    rw [h1]
  · unfold crawlDriver
    rw [h1, h2]

/-- C7 witness: the spec's scenario — six failures in a row, later items
untouched, empty accumulated collection still saved. -/
theorem crawl_circuit_breaker_witness :
    crawlDriver (List.replicate 5 (Except.error PyErr.transportError) ++
        Except.error PyErr.transportError :: [Except.ok (game.mk "a" "u" [("x", "y")])]) [] =
      AgDB.save_game_json
        (crawlLoop (List.replicate 5 (Except.error PyErr.transportError)) [] 0) :=
  (crawl_circuit_breaker (List.replicate 5 (Except.error PyErr.transportError))
    [Except.ok (game.mk "a" "u" [("x", "y")])] (Except.error PyErr.transportError) [] rfl
    (by intro g hg; simp [List.mem_replicate] at hg) (by decide)).1

/-- C8: on a detail page with no `h2` heading whose text is exactly
"Description" (and whose table pass succeeds), the parser fails — `find`
returns `None` and the traversal raises, the failure the design taxonomy
calls a structure error — and the crawl loop absorbs that failure as one
counted error and continues with the remaining items. -/
theorem parse_missing_description (doc : DetailDoc) (info0 : Dict)
    (rest : List (Except PyErr game)) (store : List Dict) (e : Nat)
    (hnone : ∀ n ∈ doc.nodes, isDescriptionHeading n = false)
    (hrows : parseRows doc.rows [] = Except.ok info0)
    (he : e < 5) :
    game.parse doc = Except.error PyErr.attributeError ∧
    crawlLoop (Except.error PyErr.attributeError :: rest) store e =
      crawlLoop rest store (e + 1) := by
  constructor
  · unfold game.parse
    rw [hrows, findDescriptionHeading_eq_none hnone]
  · show (if e + 1 > 5 then store else crawlLoop rest store (e + 1)) = _
    rw [if_neg (by omega)]

/-- C8 witness: a page with a single paragraph and no headings. -/
theorem parse_missing_description_witness :
    game.parse (DetailDoc.mk [] [Node.mk "p" "x" "y"]) = Except.error PyErr.attributeError ∧
    crawlLoop (Except.error PyErr.attributeError :: []) [] 0 = crawlLoop [] [] (0 + 1) :=
  parse_missing_description (DetailDoc.mk [] [Node.mk "p" "x" "y"]) [] [] [] 0
    (by decide) rfl (by decide)

/-- C9: saving and then loading a non-empty collection of records (each
carrying an `"id"` key) yields a collection sorted ascending by identifier
whose content is a permutation of — hence equal as a multiset to — the
pre-save in-memory collection. -/
theorem save_then_load_sorted_perm (store : List Dict)
    (_hne : store ≠ []) (_hid : ∀ r ∈ store, dictHas r "id" = true) :
    List.Perm (AgDB.load_game_json (AgDB.save_game_json store)) store ∧
    List.Sorted (fun a b => idKey a ≤ idKey b)
      (AgDB.load_game_json (AgDB.save_game_json store)) := by
  constructor
  · exact List.perm_insertionSort _ store
  · haveI h1 : IsTotal Dict (fun a b => idKey a ≤ idKey b) := ⟨fun a b => le_total _ _⟩
    haveI h2 : IsTrans Dict (fun a b => idKey a ≤ idKey b) :=
      ⟨fun a b c hab hbc => le_trans hab hbc⟩
    exact List.sorted_insertionSort _ store

/-- C9 witness: two records stored out of order. -/
theorem save_then_load_sorted_perm_witness :
    List.Perm (AgDB.load_game_json (AgDB.save_game_json [[("id", "b")], [("id", "a")]]))
      [[("id", "b")], [("id", "a")]] ∧
    List.Sorted (fun a b => idKey a ≤ idKey b)
      (AgDB.load_game_json (AgDB.save_game_json [[("id", "b")], [("id", "a")]])) :=
  save_then_load_sorted_perm [[("id", "b")], [("id", "a")]] (by simp) (by decide)

/-- C10: when the scraped attribute mapping itself contains a key named
`"id"` or `"db_url"`, the flattened record of `to_dict` reports the
scraped value under that key, silently overriding the structural
identifier or detail URL (because `dct.update(self.info)` runs after the
structural fields are set). -/
theorem to_dict_scraped_key_overrides (g : game) (hnd : NodupKeys g.info) :
    (∀ v, dictGet g.info "id" = some v → dictGet g.to_dict "id" = some v) ∧
    (∀ v, dictGet g.info "db_url" = some v → dictGet g.to_dict "db_url" = some v) := by
  constructor
  · intro v hv
    unfold game.to_dict
    rw [dictGet_dictUpdate _ hnd, hv]
  · intro v hv
    unfold game.to_dict
    rw [dictGet_dictUpdate _ hnd, hv]

/-- C10 witness: scraped `"id"` and `"db_url"` attributes win over the
structural fields. -/
theorem to_dict_scraped_key_overrides_witness :
    dictGet (game.to_dict (game.mk "G1" "http://u" [("id", "EVIL"), ("db_url", "X")])) "id" =
      some "EVIL" ∧
    dictGet (game.to_dict (game.mk "G1" "http://u" [("id", "EVIL"), ("db_url", "X")]))
        "db_url" = some "X" :=
  ⟨(to_dict_scraped_key_overrides (game.mk "G1" "http://u" [("id", "EVIL"), ("db_url", "X")])
      (by show (([("id", "EVIL"), ("db_url", "X")] : Dict).map Prod.fst).Nodup; decide)).1
     "EVIL" rfl,
   (to_dict_scraped_key_overrides (game.mk "G1" "http://u" [("id", "EVIL"), ("db_url", "X")])
      (by show (([("id", "EVIL"), ("db_url", "X")] : Dict).map Prod.fst).Nodup; decide)).2
     "X" rfl⟩

end AgDb
